import Mathlib

/-!
Verification development for the netlist compiler / cycle-accurate simulator.

The definitions below are a shallow embedding of the C++ sources:
  - `src/src/simulator.cpp`   (Simulator, ExpressionEvaluator, MemoryMapper)
  - `src/unnamed/part_000`    (Parser: parse_equations, parse_expression)
  - `src/src/report.hpp`      (Report::print vs Report::exit)

Machine integers (`value_t`, an unsigned 64-bit type) are modelled as `Nat`
with explicit reduction modulo `2 ^ 64` at the operations where C++ unsigned
overflow can occur (bitwise complement, left shift).  Environments
(`std::unordered_map`) are association lists where the most recent binding
shadows older ones; `emplace` (insert only if absent) and `operator[] =`
(overwrite) are modelled separately, since the distinction is observable.
Memory (`std::vector<value_t>`) is a total function `Nat → Nat`; the zero
default matches the zero-initialised vector.
-/

namespace Netlist

/-- The modulus of the C++ 64-bit `value_t`. -/
def w64 : Nat := 2 ^ 64

/-- Reduction modulo `2 ^ 64`, i.e. storage into a `value_t`. -/
def m64 (x : Nat) : Nat := x % w64

/-- C++ bitwise complement `~x` on a 64-bit unsigned operand. -/
def notU64 (x : Nat) : Nat := (w64 - 1) - m64 x

/-- An `Argument` of an expression: a `Constant` (with its declared bus size
and value) or a `Variable` (identified by its dense index). -/
inductive Argument where
  | const (bus_size value : Nat)
  | var (v : Nat)
deriving DecidableEq

/-- `BinOpExpression::BinOpKind`: the four binary operators of the IR. -/
inductive BinOpKind where
  | or
  | xor
  | and
  | nand
deriving DecidableEq

/-- The expression forms of the IR (the `Expression` class hierarchy).
Arguments of compound forms are flat (`Constant` or `Variable`), as in the
source. -/
inductive Expression where
  | arg (a : Argument)
  | reg (v : Nat)
  | notE (a : Argument)
  | binop (kind : BinOpKind) (lhs rhs : Argument)
  | mux (choice t f : Argument)
  | rom (addr_size word_size : Nat) (read_addr : Argument)
  | ram (addr_size word_size : Nat) (read_addr write_enable write_addr wdata : Argument)
  | concat (beg last : Argument)
  | slice (beg_index end_index : Nat) (a : Argument)
  | select (index : Nat) (a : Argument)
deriving DecidableEq

/-- `Argument::get_bus_size()`: the declared size of a constant, the declared
bus width of a variable (`w` maps variable indices to widths). -/
def arg_bus_size (w : Nat → Nat) : Argument → Nat
  | .const bs _ => bs
  | .var v => w v

/-- Modelled from the spec: `ConcatExpression::get_bus_size()`.  The
`Expression` class header is not under `src/`; §3 of the specification gives
the width of `CONCAT a b` as `width(a) + width(b)`. -/
def concat_bus_size (w : Nat → Nat) (beg last : Argument) : Nat :=
  arg_bus_size w beg + arg_bus_size w last

/-- Modelled from the spec: `Expression::get_bus_size()` for every variant.
The `Expression` class header is not under `src/`; the result widths follow
the table of §3 of the specification. -/
def expr_bus_size (w : Nat → Nat) : Expression → Nat
  | .arg a => arg_bus_size w a
  | .reg v => w v
  | .notE a => arg_bus_size w a
  | .binop _ lhs _ => arg_bus_size w lhs
  | .mux _ t _ => arg_bus_size w t
  | .rom _ word_size _ => word_size
  | .ram _ word_size _ _ _ _ => word_size
  | .concat b l => concat_bus_size w b l
  | .slice b e _ => e - b + 1
  | .select _ _ => 1

/-- `Simulator::var_env`: variable values, as an association list where the
first matching key wins (a later insert shadows older bindings). -/
abbrev Env := List (Nat × Nat)

/-- `env.at(v)` on a key known to be present; absent keys (which would throw
in C++) default to `0` and are avoided by the theorems' hypotheses. -/
def lookupD (env : Env) (v : Nat) : Nat := (env.lookup v).getD 0

/-- `env[v] = x`: overwrite (or insert) the binding of `v`. -/
def insertA (env : Env) (v x : Nat) : Env := (v, x) :: env

/-- `env.emplace(v, x)`: insert **only if `v` is absent**; an existing
binding is kept unchanged (the C++ `unordered_map::emplace` behaviour). -/
def emplaceA (env : Env) (v x : Nat) : Env :=
  if (env.lookup v).isSome then env else (v, x) :: env

/-- The flat memory vector of the simulator (registers backing store and
ROM/RAM blocks), zero-initialised. -/
abbrev Mem := Nat → Nat

/-- `memory[i] = x`. -/
def updMem (m : Mem) (i x : Nat) : Mem := fun j => if j = i then x else m j

/-- `Simulator::MemoryMapper::ram_info` entry: the write port of one RAM
block together with its slice of the flat memory vector. -/
structure RamInfo where
  write_enable : Argument
  write_addr : Argument
  data : Argument
  block_index : Nat
  block_size : Nat
deriving DecidableEq

/-- `Simulator::MemoryMapper`: register backing-store offsets and RAM/ROM
block placement inside the flat memory vector.  The C++ maps are keyed by
the REG-source variable (`reg_info`) and by the owning equation target's
name (`ram_info` / `rom_info`); variable names are in bijection with their
indices, so indices are used as keys throughout. -/
structure MemoryMapper where
  reg_info : List (Nat × Nat)
  ram_info : List (Nat × RamInfo)
  rom_info : List (Nat × (Nat × Nat))
  current_index : Nat
deriving DecidableEq

/-- One step of the `MemoryMapper` constructor: visiting one equation.  Only
`REG`, `RAM` and `ROM` expressions allocate storage. -/
def memory_map_step (acc : MemoryMapper) (eq : Nat × Expression) : MemoryMapper :=
  match eq.2 with
  | .reg u =>
    if (acc.reg_info.lookup u).isSome then acc
    else { acc with reg_info := acc.reg_info ++ [(u, acc.current_index)],
                    current_index := acc.current_index + 1 }
  | .ram asz _ _ we wa wd =>
    { acc with ram_info := acc.ram_info ++ [(eq.1, ⟨we, wa, wd, acc.current_index, 2 ^ asz⟩)],
               current_index := acc.current_index + 2 ^ asz }
  | .rom asz _ _ =>
    { acc with rom_info := acc.rom_info ++ [(eq.1, (acc.current_index, 2 ^ asz))],
               current_index := acc.current_index + 2 ^ asz }
  | _ => acc

/-- `Simulator::MemoryMapper::MemoryMapper`: fold over the program's
equations (in their iteration order). -/
def build_memory_map (eqs : List (Nat × Expression)) : MemoryMapper :=
  eqs.foldl memory_map_step ⟨[], [], [], 0⟩

/-- `mem_map.reg_info.at(u)`. -/
def reg_offset (mm : MemoryMapper) (u : Nat) : Nat :=
  (mm.reg_info.lookup u).getD 0

/-- `mem_map.ram_info.at(name).block_index`. -/
def ram_block_index (mm : MemoryMapper) (v : Nat) : Nat :=
  ((mm.ram_info.lookup v).map RamInfo.block_index).getD 0

/-- `mem_map.rom_info.at(name).block_index`. -/
def rom_block_index (mm : MemoryMapper) (v : Nat) : Nat :=
  ((mm.rom_info.lookup v).map Prod.fst).getD 0

/-- `Simulator::eval_arg` / `ExpressionEvaluator::visit_constant` and
`visit_variable`: a constant evaluates to its value, a variable to its
current environment entry — with no masking on the read. -/
def eval_arg (env : Env) : Argument → Nat
  | .const _ value => value
  | .var v => lookupD env v

/-- `ExpressionEvaluator::eval` (the visitor dispatch).  Note what is *not*
masked, faithfully to the source: `NOT` and `NAND` store the full 64-bit
complement; ROM/RAM read addresses are used unmasked.  `CONCAT` shifts its
second part by `expr.get_bus_size()` (see `concat_bus_size`). -/
def eval_expr (w : Nat → Nat) (mm : MemoryMapper) (mem : Mem) (env : Env)
    (current_var : Nat) : Expression → Nat
  | .arg a => eval_arg env a
  | .reg u => mem (reg_offset mm u)
  | .notE a => notU64 (eval_arg env a)
  | .binop k lhs rhs =>
    match k with
    | .or => eval_arg env lhs ||| eval_arg env rhs
    | .xor => eval_arg env lhs ^^^ eval_arg env rhs
    | .and => eval_arg env lhs &&& eval_arg env rhs
    | .nand => notU64 (eval_arg env lhs &&& eval_arg env rhs)
  | .mux c t f => if eval_arg env c ≠ 0 then eval_arg env t else eval_arg env f
  | .rom _ _ ra => mem (rom_block_index mm current_var + eval_arg env ra)
  | .ram _ _ ra _ _ _ => mem (ram_block_index mm current_var + eval_arg env ra)
  | .concat b l => m64 (eval_arg env l <<< concat_bus_size w b l) ||| eval_arg env b
  | .slice b e a => (eval_arg env a >>> b) &&& (m64 (1 <<< (e - b + 1)) - 1)
  | .select i a => (eval_arg env a >>> i) &&& 1

/-- The immutable data the simulator runs over: input variables (in
declaration order), the scheduled `dep_list`, the equation map, and the
declared bus widths. -/
structure Prog where
  inputs : List Nat
  dep_list : List Nat
  eqs : List (Nat × Expression)
  width : Nat → Nat

/-- `prog->get_equations().at(v)`; the default is never reached when `v` is
a scheduled equation target. -/
def eq_of (P : Prog) (v : Nat) : Expression :=
  (P.eqs.lookup v).getD (.arg (.const 0 0))

/-- Mutable per-cycle state: the value environment and the flat memory. -/
structure SimState where
  env : Env
  memory : Mem

/-- Step 1 of `Simulator::cycle`: `env.emplace(in_var, value)` for every
input variable — note `emplace`, not assignment. -/
def bind_inputs (feed_val : Nat → Nat) (inputs : List Nat) (env : Env) : Env :=
  inputs.foldl (fun e v => emplaceA e v (feed_val v)) env

/-- Step 2 of `Simulator::cycle`: evaluate the scheduled equations in order,
each result overwriting the target's environment slot; the evaluator reads
the memory vector as it was at cycle entry. -/
def eval_phase (P : Prog) (mm : MemoryMapper) (mem : Mem) (dl : List Nat) (env : Env) : Env :=
  dl.foldl (fun e v => insertA e v (eval_expr P.width mm mem e v (eq_of P v))) env

/-- Step 3 of `Simulator::cycle`: save every REG source's current value into
its backing slot. -/
def reg_save_fold (env : Env) (l : List (Nat × Nat)) (mem : Mem) : Mem :=
  l.foldl (fun m p => updMem m p.2 (lookupD env p.1)) mem

/-- One RAM write of step 4: performed only when `write_enable` evaluates
nonzero in this cycle's final environment. -/
def ram_write_step (env : Env) (m : Mem) (p : Nat × RamInfo) : Mem :=
  if eval_arg env p.2.write_enable ≠ 0 then
    updMem m (p.2.block_index + eval_arg env p.2.write_addr) (eval_arg env p.2.data)
  else m

/-- Step 4 of `Simulator::cycle`: the RAM writes, after all equations. -/
def ram_write_fold (env : Env) (l : List (Nat × RamInfo)) (mem : Mem) : Mem :=
  l.foldl (ram_write_step env) mem

/-- The environment at the end of the equation phase of one `cycle()`. -/
def env_after (P : Prog) (mm : MemoryMapper) (feed_val : Nat → Nat) (s : SimState) : Env :=
  eval_phase P mm s.memory P.dep_list (bind_inputs feed_val P.inputs s.env)

/-- `Simulator::cycle`: bind inputs, evaluate the schedule, save registers,
then perform the RAM writes. -/
def cycle (P : Prog) (mm : MemoryMapper) (feed_val : Nat → Nat) (s : SimState) : SimState :=
  { env := env_after P mm feed_val s,
    memory := ram_write_fold (env_after P mm feed_val s) mm.ram_info
                (reg_save_fold (env_after P mm feed_val s) mm.reg_info s.memory) }

/-- The state built by `Simulator::Simulator`: every equation target is
emplaced at `0`; the memory vector is zero-initialised. -/
def init_state (P : Prog) : SimState :=
  { env := P.eqs.map (fun p => (p.1, 0)), memory := fun _ => 0 }

/-- `Simulator::simulate`: the state after `n` calls to `cycle()`;
`feed n v` is the externally supplied value of input `v` at cycle `n`. -/
def runSim (P : Prog) (mm : MemoryMapper) (feed : Nat → Nat → Nat) : Nat → SimState
  | 0 => init_state P
  | n + 1 => cycle P mm (feed n) (runSim P mm feed n)

/-!
Model of the memory-binding phase of `Simulator::Simulator`
(`src/src/simulator.cpp`, lines 150-210).

The constructor walks the externally supplied memory chunks.  A chunk whose
name matches no RAM and no ROM block leaves the locals `block_size` and
`block_index` uninitialised; C++ gives them indeterminate values, modelled
here by the explicit parameters `bs_arb` / `bi_arb`.  Diagnostics either
`print()` (and return) or `exit()` (and never return); `InitResult.exited`
records whether `Report::exit` was reached.
-/

/-- Observable events of the constructor's memory-binding phase. -/
inductive InitEvent where
  | warnUnused (name : Nat)
  | sizeCheck (expected got : Nat)
  | exitSizeMismatch (name : Nat)
  | copyChunk (start len : Nat)
  | errUnboundRom (name : Nat)
  | warnUnboundRam (name : Nat)
deriving DecidableEq

/-- Whether an event is an ERROR-severity diagnostic. -/
def eventIsError : InitEvent → Bool
  | .exitSizeMismatch _ => true
  | .errUnboundRom _ => true
  | _ => false

/-- The events of the phase, and whether `Report::exit` (which never
returns, so the simulation loop is never entered) was reached. -/
structure InitResult where
  events : List InitEvent
  exited : Bool
deriving DecidableEq

/-- Processing of one supplied memory chunk (the body of the loop over
`in_manager.memory_blocks`).  `bs_arb` / `bi_arb` stand for the
indeterminate values of the uninitialised locals on the unmatched path. -/
def processChunk (mm : MemoryMapper) (bs_arb bi_arb name : Nat) (data : List Nat) :
    InitResult :=
  let info : List InitEvent × Nat × Nat :=
    match mm.ram_info.lookup name with
    | some ri => ([], ri.block_size, ri.block_index)
    | none =>
      match mm.rom_info.lookup name with
      | some bb => ([], bb.2, bb.1)
      | none => ([InitEvent.warnUnused name], bs_arb, bi_arb)
  if info.2.1 ≠ data.length then
    ⟨info.1 ++ [InitEvent.sizeCheck info.2.1 data.length, InitEvent.exitSizeMismatch name], true⟩
  else
    ⟨info.1 ++ [InitEvent.sizeCheck info.2.1 data.length, InitEvent.copyChunk info.2.2 data.length], false⟩

/-- The loop over all supplied chunks; `Report::exit` aborts it. -/
def processChunks (mm : MemoryMapper) (bs_arb bi_arb : Nat) :
    List (Nat × List Nat) → InitResult
  | [] => ⟨[], false⟩
  | (name, data) :: rest =>
    let r := processChunk mm bs_arb bi_arb name data
    if r.exited then r
    else
      let r2 := processChunks mm bs_arb bi_arb rest
      ⟨r.events ++ r2.events, r2.exited⟩

/-- The trailing loop over `uninitialised_blocks`: an unbound ROM block
produces an ERROR diagnostic via `print()` (not `exit()`); an unbound RAM
block produces a warning. -/
def uninitEvents (mm : MemoryMapper) (supplied : List Nat) : List InitEvent :=
  ((mm.ram_info.map Prod.fst ++ mm.rom_info.map Prod.fst).filter
      (fun n => ¬ supplied.contains n)).map
    (fun n => if (mm.rom_info.lookup n).isSome then InitEvent.errUnboundRom n
              else InitEvent.warnUnboundRam n)

/-- The whole memory-binding phase of the constructor. -/
def simulatorInitMem (mm : MemoryMapper) (bs_arb bi_arb : Nat)
    (chunks : List (Nat × List Nat)) : InitResult :=
  let r := processChunks mm bs_arb bi_arb chunks
  if r.exited then r
  else ⟨r.events ++ uninitEvents mm (chunks.map Prod.fst), false⟩

/-!
Model of the relevant parts of the parser (`src/unnamed/part_000`).

`parse_equations` (lines 858-882): each equation's target must be a declared
variable; the expression is parsed; the comparison of the expression's bus
size with the target's is performed **with an empty body** (the line
`// Wrong bus size.` comments an if-statement that does nothing); then the
equation is inserted with `try_emplace`, which keeps an existing entry.

`parse_expression`, `SLICE` case (lines 997-1015): `beg >= end` is an error,
then `assert_bus_size_gt(arg, end)` requires `width(arg) > end`.
-/

/-- The parse/semantic diagnostics relevant to the modelled paths.  Each one
is emitted through `Report::exit`, so parsing stops at the first error. -/
inductive ParseDiag where
  | undefined_assignment (name : Nat)
  | slice_bad_interval (beg_index end_index : Nat)
  | bus_size_not_gt (bus_size bound : Nat)
deriving DecidableEq

/-- `p->m_eq.try_emplace(v, e)`: inserts only when no equation for `v`
exists; otherwise the map is unchanged and the new expression is dropped. -/
def try_emplace (meq : List (Nat × Expression)) (v : Nat) (e : Expression) :
    List (Nat × Expression) :=
  if (meq.lookup v).isSome then meq else meq ++ [(v, e)]

/-- `Parser::parse_equations`, over the already-parsed list of
`target = expression` pairs.  `vars` is the VAR table (name index ↦ declared
width).  The bus-size comparison of the source is intentionally absent from
the success path: its if-body is empty, so the result does not depend on
it. -/
def parse_equations (vars : List (Nat × Nat)) :
    List (Nat × Expression) → List (Nat × Expression) →
    Except ParseDiag (List (Nat × Expression))
  | [], meq => .ok meq
  | (v, e) :: rest, meq =>
    if (vars.lookup v).isSome then
      parse_equations vars rest (try_emplace meq v e)
    else
      .error (.undefined_assignment v)

/-- The `SLICE` validation of `Parser::parse_expression`: given the two
parsed indices and the bus size of the parsed argument, either a diagnostic
(via `Report::exit`) or the accepted slice's result width (`e − s + 1`, per
the §3 table; the `SliceExpression` class header is not under `src/`). -/
def parse_slice_check (beg_index end_index arg_bs : Nat) : Except ParseDiag Nat :=
  if beg_index ≥ end_index then .error (.slice_bad_interval beg_index end_index)
  else if arg_bs ≤ end_index then .error (.bus_size_not_gt arg_bs end_index)
  else .ok (end_index - beg_index + 1)

/-!
Concrete programs used by the claim theorems and witnesses.  Variable
indices stand for the parser's interned variables.
-/

/-- Scenario 1 of §8: `INPUT a; OUTPUT o; VAR a, o; IN o = REG a`
(`a` is variable 0, `o` is variable 1; both of width 1). -/
def Pid : Prog := ⟨[0], [1], [(1, .reg 0)], fun _ => 1⟩

/-- The memory map the simulator builds for `Pid`. -/
def mmId : MemoryMapper := build_memory_map Pid.eqs

/-- The input feed a = 1, 0, 1, 1 of scenario 1. -/
def feedId : Nat → Nat → Nat := fun k _ => if k = 0 then 1 else if k = 1 then 0 else 1

/-- `INPUT a; OUTPUT o; VAR a, o; IN o = NOT a`
(`a` is variable 0, `o` is variable 1; both of width 1). -/
def Pnot : Prog := ⟨[0], [1], [(1, .notE (.var 0))], fun _ => 1⟩

/-- The memory map built for `Pnot` (no REG/RAM/ROM: empty). -/
def mmNot : MemoryMapper := build_memory_map Pnot.eqs

/-- `INPUT a, b; OUTPUT o; VAR a, b, o:2; IN o = CONCAT a b`
(`a` is variable 0, `b` is variable 1, each of width 1; `o` is variable 2 of
width 2). -/
def Pcat : Prog := ⟨[0, 1], [2], [(2, .concat (.var 0) (.var 1))], fun v => if v = 2 then 2 else 1⟩

/-- The memory map built for `Pcat` (empty). -/
def mmCat : MemoryMapper := build_memory_map Pcat.eqs

/-- The feed a = 0, b = 1 for `Pcat`. -/
def feedCat : Nat → Nat → Nat := fun _ v => if v = 1 then 1 else 0

/-- Scenario 5 of §8: a RAM of address size 1 and word size 4.
`INPUT we, ra, wa, wd; OUTPUT r; VAR we, ra, wa, wd:4, r:4;
IN r = RAM 1 4 ra we wa wd` (indices 0, 1, 2, 3, 4 respectively). -/
def Pram : Prog :=
  ⟨[0, 1, 2, 3], [4],
   [(4, .ram 1 4 (.var 1) (.var 0) (.var 2) (.var 3))],
   fun v => if v = 3 then 4 else if v = 4 then 4 else 1⟩

/-- The memory map built for `Pram`: one RAM block of size `2 ^ 1` at
offset 0. -/
def mmRam : MemoryMapper := build_memory_map Pram.eqs

/-- Cycle 0 of scenario 5: we = 1, ra = 0, wa = 0, wd = 0b1111; afterwards
we = 0, ra = 0. -/
def feedRam : Nat → Nat → Nat := fun k v =>
  if k = 0 then (if v = 0 then 1 else if v = 3 then 15 else 0) else 0

/-- The VAR table of `INPUT a; OUTPUT o; VAR a:2, o; IN o = a`:
variable 0 (`a`) of width 2, variable 1 (`o`) of width 1. -/
def varsC7 : List (Nat × Nat) := [(0, 2), (1, 1)]

/-- A program whose only equation is a ROM: `d = ROM 1 4 addr`
(target is variable 5). -/
def mmRomOnly : MemoryMapper := build_memory_map [(5, .rom 1 4 (.var 0))]

/-- A memory mapper with no RAM and no ROM blocks. -/
def mmNoBlocks : MemoryMapper := ⟨[], [], [], 0⟩

/-! Helper lemmas about association lists and the fold phases of `cycle`. -/

theorem lookup_some_mem {β : Type} {l : List (Nat × β)} {k : Nat} {b : β}
    (h : l.lookup k = some b) : (k, b) ∈ l := by
  induction l with
  | nil => cases h
  | cons p tl ih =>
    rcases p with ⟨a, c⟩
    by_cases hk : k = a
    · subst hk
      simp [List.lookup] at h
      subst h
      exact List.mem_cons_self _ _
    · simp only [List.lookup, beq_eq_false_iff_ne.mpr hk] at h
      exact List.mem_cons_of_mem _ (ih h)

theorem lookup_some_mem_keys {β : Type} {l : List (Nat × β)} {k : Nat} {b : β}
    (h : l.lookup k = some b) : k ∈ l.map Prod.fst :=
  List.mem_map.2 ⟨(k, b), lookup_some_mem h, rfl⟩

theorem lookup_insertA_self (env : Env) (v x : Nat) :
    (insertA env v x).lookup v = some x := by
  simp [insertA, List.lookup]

theorem lookup_insertA_ne (env : Env) (v w x : Nat) (h : w ≠ v) :
    (insertA env v x).lookup w = env.lookup w := by
  simp only [insertA, List.lookup, beq_eq_false_iff_ne.mpr h]

theorem eval_phase_nil (P : Prog) (mm : MemoryMapper) (mem : Mem) (env : Env) :
    eval_phase P mm mem [] env = env := rfl

theorem eval_phase_cons (P : Prog) (mm : MemoryMapper) (mem : Mem) (v : Nat)
    (dl : List Nat) (env : Env) :
    eval_phase P mm mem (v :: dl) env =
      eval_phase P mm mem dl (insertA env v (eval_expr P.width mm mem env v (eq_of P v))) := rfl

theorem eval_phase_append (P : Prog) (mm : MemoryMapper) (mem : Mem)
    (l₁ l₂ : List Nat) (env : Env) :
    eval_phase P mm mem (l₁ ++ l₂) env = eval_phase P mm mem l₂ (eval_phase P mm mem l₁ env) := by
  simp [eval_phase, List.foldl_append]

theorem eval_phase_not_mem (P : Prog) (mm : MemoryMapper) (mem : Mem) (v : Nat)
    (dl : List Nat) (env : Env) (h : v ∉ dl) :
    (eval_phase P mm mem dl env).lookup v = env.lookup v := by
  induction dl generalizing env with
  | nil => rfl
  | cons w tl ih =>
    have hw : v ≠ w := fun e => h (e ▸ List.mem_cons_self w tl)
    rw [eval_phase_cons, ih _ (fun hm => h (List.mem_cons_of_mem _ hm)),
      lookup_insertA_ne _ _ _ _ hw]

/-- The value the equation phase leaves in the target of the occurrence of
`v` at position `l₁ ++ v :: l₂` of the schedule (the last occurrence, since
`v ∉ l₂`): the evaluation of `v`'s equation in the environment reached after
the prefix `l₁`, against the cycle-entry memory. -/
theorem eval_phase_last (P : Prog) (mm : MemoryMapper) (mem : Mem)
    (l₁ l₂ : List Nat) (v : Nat) (env : Env) (h : v ∉ l₂) :
    lookupD (eval_phase P mm mem (l₁ ++ v :: l₂) env) v =
      eval_expr P.width mm mem (eval_phase P mm mem l₁ env) v (eq_of P v) := by
  rw [eval_phase_append, eval_phase_cons, lookupD,
    eval_phase_not_mem _ _ _ _ _ _ h, lookup_insertA_self]
  rfl

theorem reg_save_fold_cons (env : Env) (p : Nat × Nat) (tl : List (Nat × Nat)) (mem : Mem) :
    reg_save_fold env (p :: tl) mem =
      reg_save_fold env tl (updMem mem p.2 (lookupD env p.1)) := rfl

theorem reg_save_fold_miss (env : Env) (l : List (Nat × Nat)) (mem : Mem) (o : Nat)
    (h : ∀ p ∈ l, p.2 ≠ o) : reg_save_fold env l mem o = mem o := by
  induction l generalizing mem with
  | nil => rfl
  | cons p tl ih =>
    rw [reg_save_fold_cons, ih _ (fun q hq => h q (List.mem_cons_of_mem _ hq))]
    exact if_neg (fun e => h p (List.mem_cons_self _ _) e.symm)

/-- The register-save phase writes `env[u]` into `u`'s backing slot `o`
(offsets are pairwise distinct under `build_memory_map`). -/
theorem reg_save_fold_eq (env : Env) (l : List (Nat × Nat)) (mem : Mem) (u o : Nat)
    (hmem : (u, o) ∈ l) (hnd : (l.map Prod.snd).Nodup) :
    reg_save_fold env l mem o = lookupD env u := by
  induction l generalizing mem with
  | nil => cases hmem
  | cons p tl ih =>
    rw [List.map_cons, List.nodup_cons] at hnd
    rcases List.mem_cons.1 hmem with he | hm
    · rw [← he] at hnd
      have hmiss : ∀ q ∈ tl, q.2 ≠ o := fun q hq e =>
        hnd.1 (show (u, o).2 ∈ tl.map Prod.snd by
          rw [show (u, o).2 = q.2 from e.symm]
          exact List.mem_map_of_mem Prod.snd hq)
      rw [reg_save_fold_cons, reg_save_fold_miss _ _ _ _ hmiss, ← he]
      simp [updMem, lookupD]
    · exact ih _ hm hnd.2

theorem ram_write_fold_cons (env : Env) (p : Nat × RamInfo) (tl : List (Nat × RamInfo)) (mem : Mem) :
    ram_write_fold env (p :: tl) mem = ram_write_fold env tl (ram_write_step env mem p) := rfl

theorem ram_write_step_miss (env : Env) (mem : Mem) (p : Nat × RamInfo) (a : Nat)
    (h : eval_arg env p.2.write_enable ≠ 0 → p.2.block_index + eval_arg env p.2.write_addr ≠ a) :
    ram_write_step env mem p a = mem a := by
  unfold ram_write_step
  split
  · exact if_neg (fun e => h (by assumption) e.symm)
  · rfl

theorem ram_write_fold_miss (env : Env) (l : List (Nat × RamInfo)) (mem : Mem) (a : Nat)
    (h : ∀ q ∈ l, eval_arg env q.2.write_enable ≠ 0 →
      q.2.block_index + eval_arg env q.2.write_addr ≠ a) :
    ram_write_fold env l mem a = mem a := by
  induction l generalizing mem with
  | nil => rfl
  | cons p tl ih =>
    rw [ram_write_fold_cons, ih _ (fun q hq => h q (List.mem_cons_of_mem _ hq))]
    exact ram_write_step_miss _ _ _ _ (h p (List.mem_cons_self _ _))

/-- The RAM-write phase puts the write-data value at the write address of an
enabled block `(v, ri)`, provided no other enabled block targets the same
flat-memory offset. -/
theorem ram_write_fold_hit (env : Env) (l : List (Nat × RamInfo)) (mem : Mem)
    (v : Nat) (ri : RamInfo) (hmem : (v, ri) ∈ l) (hkeys : (l.map Prod.fst).Nodup)
    (hen : eval_arg env ri.write_enable ≠ 0)
    (hothers : ∀ q ∈ l, q.1 ≠ v → eval_arg env q.2.write_enable ≠ 0 →
      q.2.block_index + eval_arg env q.2.write_addr ≠
        ri.block_index + eval_arg env ri.write_addr) :
    ram_write_fold env l mem (ri.block_index + eval_arg env ri.write_addr) =
      eval_arg env ri.data := by
  induction l generalizing mem with
  | nil => cases hmem
  | cons p tl ih =>
    rw [List.map_cons, List.nodup_cons] at hkeys
    rcases List.mem_cons.1 hmem with he | hm
    · rw [← he] at hkeys
      have hmiss : ∀ q ∈ tl, eval_arg env q.2.write_enable ≠ 0 →
          q.2.block_index + eval_arg env q.2.write_addr ≠
            ri.block_index + eval_arg env ri.write_addr := fun q hq hqe =>
        hothers q (List.mem_cons_of_mem _ hq)
          (fun e => hkeys.1 (show (v, ri).1 ∈ tl.map Prod.fst by
            rw [show (v, ri).1 = q.1 from e.symm]
            exact List.mem_map_of_mem Prod.fst hq)) hqe
      rw [ram_write_fold_cons, ram_write_fold_miss _ _ _ _ hmiss, ← he]
      unfold ram_write_step
      rw [if_pos hen]
      simp [updMem]
    · exact ih _ hm hkeys.2 (fun q hq => hothers q (List.mem_cons_of_mem _ hq))

/-! The claim theorems. -/

/-- C1.  The claim states that every `cycle()` rewrites the current value of
every input variable, so that the identity-register scenario fed
a = 1, 0, 1, 1 outputs o = 0, 1, 0, 1.  The code uses `env.emplace`, which
never overwrites the binding created at the first cycle: the simulated trace
of the scenario is o = 0, 1, 1, 1, diverging from the claim at cycle 3. -/
theorem c1_identity_register_trace :
    ([0, 1, 2, 3].map fun k => lookupD ((runSim Pid mmId feedId (k + 1)).env) 1) = [0, 1, 1, 1] ∧
    ([0, 1, 1, 1] : List Nat) ≠ [0, 1, 0, 1] :=
  ⟨by decide, by decide⟩

/-- C2.  For an equation `v = REG u` scheduled (last) at position
`l₁ ++ v :: l₂` of the dependency list, the value the equation phase leaves
in `v` at cycle `n` is `0` for the first cycle and the end-of-cycle value of
`u` at cycle `n − 1` afterwards: the backing slot `o` of `u` starts at zero
and is refreshed from the environment after all equations of each cycle
(`hmiss` states that no RAM write of that cycle lands on the register slot,
which holds for the disjoint layout `build_memory_map` produces). -/
theorem c2_reg_two_phase
    (P : Prog) (mm : MemoryMapper) (feed : Nat → Nat → Nat) (v u o n : Nat)
    (l₁ l₂ : List Nat)
    (hdl : P.dep_list = l₁ ++ v :: l₂) (hv : v ∉ l₂)
    (heq : P.eqs.lookup v = some (Expression.reg u))
    (ho : mm.reg_info.lookup u = some o)
    (hnd : (mm.reg_info.map Prod.snd).Nodup)
    (hmiss : ∀ q ∈ mm.ram_info,
      eval_arg ((runSim P mm feed n).env) q.2.write_enable ≠ 0 →
      q.2.block_index + eval_arg ((runSim P mm feed n).env) q.2.write_addr ≠ o) :
    lookupD ((runSim P mm feed (n + 1)).env) v =
      match n with
      | 0 => 0
      | _ + 1 => lookupD ((runSim P mm feed n).env) u := by
  have hv_eval : lookupD ((runSim P mm feed (n + 1)).env) v = (runSim P mm feed n).memory o := by
    show lookupD (env_after P mm (feed n) (runSim P mm feed n)) v = _
    unfold env_after
    rw [hdl, eval_phase_last _ _ _ _ _ _ _ hv]
    unfold eq_of
    rw [heq]
    show (runSim P mm feed n).memory (reg_offset mm u) = _
    unfold reg_offset
    rw [ho]
    rfl
  rw [hv_eval]
  cases n with
  | zero => rfl
  | succ m =>
    show ram_write_fold ((runSim P mm feed (m + 1)).env) mm.ram_info
        (reg_save_fold ((runSim P mm feed (m + 1)).env) mm.reg_info
          (runSim P mm feed m).memory) o = _
    rw [ram_write_fold_miss _ _ _ _ hmiss,
      reg_save_fold_eq _ _ _ _ _ (lookup_some_mem ho) hnd]

/-- Witness for C2: the identity register, at cycles 0 and 1. -/
theorem c2_reg_two_phase_witness :
    lookupD ((runSim Pid mmId feedId 1).env) 1 = 0 ∧
    lookupD ((runSim Pid mmId feedId 2).env) 1 = lookupD ((runSim Pid mmId feedId 1).env) 0 := by
  constructor
  · exact c2_reg_two_phase Pid mmId feedId 1 0 0 0 [] [] rfl (by decide) rfl rfl
      (by decide) (by decide)
  · exact c2_reg_two_phase Pid mmId feedId 1 0 0 1 [] [] rfl (by decide) rfl rfl
      (by decide) (by decide)

/-- C3.  In one `cycle()`, the value assigned to a RAM equation's target `v`
is read from the cycle-entry memory `s.memory` — the contents before any of
this cycle's RAM writes — at the block's base plus the read address as
evaluated when `v`'s turn in the schedule comes; and the enabled write of
the write-data value to the write address is applied (after all equations),
so it is visible in the post-cycle memory but not in the value read.
`hothers` rules out a second enabled block writing the same flat offset
(blocks are disjoint under `build_memory_map`). -/
theorem c3_ram_read_before_write
    (P : Prog) (mm : MemoryMapper) (feed_val : Nat → Nat) (s : SimState)
    (v asz wsz : Nat) (ra we wa wd : Argument) (ri : RamInfo)
    (l₁ l₂ : List Nat)
    (hdl : P.dep_list = l₁ ++ v :: l₂) (hv : v ∉ l₂)
    (heq : P.eqs.lookup v = some (Expression.ram asz wsz ra we wa wd))
    (hri : mm.ram_info.lookup v = some ri)
    (hkeys : (mm.ram_info.map Prod.fst).Nodup)
    (hen : eval_arg (env_after P mm feed_val s) ri.write_enable ≠ 0)
    (hothers : ∀ q ∈ mm.ram_info, q.1 ≠ v →
      eval_arg (env_after P mm feed_val s) q.2.write_enable ≠ 0 →
      q.2.block_index + eval_arg (env_after P mm feed_val s) q.2.write_addr ≠
        ri.block_index + eval_arg (env_after P mm feed_val s) ri.write_addr) :
    lookupD ((cycle P mm feed_val s).env) v =
      s.memory (ri.block_index +
        eval_arg (eval_phase P mm s.memory l₁ (bind_inputs feed_val P.inputs s.env)) ra) ∧
    (cycle P mm feed_val s).memory
        (ri.block_index + eval_arg (env_after P mm feed_val s) ri.write_addr) =
      eval_arg (env_after P mm feed_val s) ri.data := by
  constructor
  · show lookupD (env_after P mm feed_val s) v = _
    unfold env_after
    rw [hdl, eval_phase_last _ _ _ _ _ _ _ hv]
    unfold eq_of
    rw [heq]
    show s.memory (ram_block_index mm v + _) = _
    unfold ram_block_index
    rw [hri]
    rfl
  · show ram_write_fold (env_after P mm feed_val s) mm.ram_info
        (reg_save_fold (env_after P mm feed_val s) mm.reg_info s.memory) _ = _
    exact ram_write_fold_hit _ _ _ _ _ (lookup_some_mem hri) hkeys hen hothers

/-- Witness for C3: scenario 5 of §8 — in the write cycle the read returns
the old word 0 while the post-cycle memory holds 15. -/
theorem c3_ram_read_before_write_witness :
    lookupD ((cycle Pram mmRam (feedRam 0) (init_state Pram)).env) 4 = 0 ∧
    (cycle Pram mmRam (feedRam 0) (init_state Pram)).memory 0 = 15 := by
  have h := c3_ram_read_before_write Pram mmRam (feedRam 0) (init_state Pram)
    4 1 4 (.var 1) (.var 0) (.var 2) (.var 3) ⟨.var 0, .var 2, .var 3, 0, 2⟩ [] []
    rfl (by decide) rfl rfl (by decide) (by decide) (by decide)
  exact ⟨h.1.trans (by decide), h.2.trans (by decide)⟩

/-- C4, counterexample.  The claim states `cur[v] < 2 ^ width(v)` on every
read, NOT results being masked on write.  Running `o = NOT a` (both of
width 1) with input a = 1 stores the full unmasked 64-bit complement
`2 ^ 64 − 2` in `o`, so the read of `o` is not below `2 ^ width(o) = 2`:
`visit_not_expr` computes `~current_value` with no mask, and
`visit_variable` reads `env.at(var)` with no mask. -/
theorem c4_unmasked_cex :
    lookupD ((runSim Pnot mmNot (fun _ _ => 1) 1).env) 1 = 2 ^ 64 - 2 ∧
    ¬ lookupD ((runSim Pnot mmNot (fun _ _ => 1) 1).env) 1 < 2 ^ Pnot.width 1 :=
  ⟨by decide, by decide⟩

/-- C4, amended.  Values are stored and read unmasked by the evaluator: for
`o = NOT a` of width 1 and any masked input `x`, the current value of `o`
after one cycle is the full complement `2 ^ 64 − 1 − x`, which is at least
`2 ^ width(o)`; the invariant `cur[v] < 2 ^ width(v)` does not hold at the
evaluator's reads. -/
theorem c4_not_stores_unmasked (x : Nat) (hx : x < 2) :
    lookupD ((runSim Pnot mmNot (fun _ _ => x) 1).env) 1 = 2 ^ 64 - 1 - x ∧
    2 ^ Pnot.width 1 ≤ lookupD ((runSim Pnot mmNot (fun _ _ => x) 1).env) 1 := by
  have hlt : x < w64 := lt_of_lt_of_le hx (by norm_num [w64])
  constructor
  · show (w64 - 1) - x % w64 = 2 ^ 64 - 1 - x
    rw [Nat.mod_eq_of_lt hlt]
    rfl
  · show (2 : Nat) ≤ (w64 - 1) - x % w64
    rw [Nat.mod_eq_of_lt hlt]
    have h64 : w64 = 18446744073709551616 := by norm_num [w64]
    omega

/-- Witness for C4's amended theorem, at x = 1. -/
theorem c4_not_stores_unmasked_witness :
    (1 : Nat) < 2 ∧
    (lookupD ((runSim Pnot mmNot (fun _ _ => 1) 1).env) 1 = 2 ^ 64 - 1 - 1 ∧
     2 ^ Pnot.width 1 ≤ lookupD ((runSim Pnot mmNot (fun _ _ => 1) 1).env) 1) :=
  ⟨by decide, c4_not_stores_unmasked 1 (by decide)⟩

/-- C5.  The claim (and §4.4) gives `CONCAT a b` the value
`cur[a] | (cur[b] << width(a))`.  The evaluator shifts by
`expr.get_bus_size()` — the concat's own width `width(a) + width(b)` — so
for `o = CONCAT a b` (widths 1, 1, 2) with a = 0, b = 1 the stored value is
`1 << 2 = 4`, while the specified value is `0 | (1 << 1) = 2`. -/
theorem c5_concat_shift_eval :
    lookupD ((runSim Pcat mmCat feedCat 1).env) 2 = 4 ∧
    (0 : Nat) ||| (1 <<< Pcat.width 0) = 2 ∧
    lookupD ((runSim Pcat mmCat feedCat 1).env) 2 ≠ (0 : Nat) ||| (1 <<< Pcat.width 0) :=
  ⟨by decide, by decide, by decide⟩

/-- C6, counterexample.  With one ROM block (owned by variable 5) and no
supplied memory chunks, the constructor's memory phase emits the unbound-ROM
diagnostic — an ERROR — through `Report::print`, not `Report::exit`: the
constructor returns (`exited = false`) and the caller's simulation loop
runs, contradicting the claim that the loop is never entered. -/
theorem c6_unbound_rom_cex :
    simulatorInitMem mmRomOnly 0 0 [] = ⟨[InitEvent.errUnboundRom 5], false⟩ ∧
    eventIsError (InitEvent.errUnboundRom 5) = true :=
  ⟨rfl, rfl⟩

/-- C6, amended.  An uninitialised ROM block makes the constructor report an
ERROR diagnostic, but the diagnostic is printed without exiting: the
constructor completes and the simulation loop is still entered.  (Only a
chunk-size mismatch aborts, and an uninitialised RAM block only warns.) -/
theorem c6_unbound_rom_error_not_fatal (mm : MemoryMapper) (name bi bs : Nat)
    (bs_arb bi_arb : Nat) (hrom : mm.rom_info.lookup name = some (bi, bs)) :
    InitEvent.errUnboundRom name ∈ (simulatorInitMem mm bs_arb bi_arb []).events ∧
    (simulatorInitMem mm bs_arb bi_arb []).exited = false := by
  constructor
  · show InitEvent.errUnboundRom name ∈ uninitEvents mm []
    unfold uninitEvents
    have hmemk : name ∈ (mm.ram_info.map Prod.fst ++ mm.rom_info.map Prod.fst) :=
      List.mem_append.2 (Or.inr (lookup_some_mem_keys hrom))
    refine List.mem_map.2 ⟨name, List.mem_filter.2 ⟨hmemk, by simp⟩, ?_⟩
    simp [hrom]
  · rfl

/-- Witness for C6's amended theorem: the one-ROM mapper. -/
theorem c6_unbound_rom_error_not_fatal_witness :
    InitEvent.errUnboundRom 5 ∈ (simulatorInitMem mmRomOnly 0 0 []).events ∧
    (simulatorInitMem mmRomOnly 0 0 []).exited = false :=
  c6_unbound_rom_error_not_fatal mmRomOnly 5 0 2 0 0 rfl

/-- C7.  `parse_equations` compares the expression's bus size with the
target's, but the body of that if-statement is empty (`// Wrong bus size.`),
so an equation whose expression width differs from its target's width — here
`o = a` with `width(a) = 2`, `width(o) = 1` — parses without any error. -/
theorem c7_width_mismatch_accepted :
    parse_equations varsC7 [(1, Expression.arg (.var 0))] [] =
      .ok [(1, Expression.arg (.var 0))] ∧
    expr_bus_size (fun n => lookupD varsC7 n) (Expression.arg (.var 0)) ≠ lookupD varsC7 1 :=
  ⟨rfl, by decide⟩

/-- C8, counterexample.  Two equations for the same variable 1 parse without
any error, and the second is silently dropped: `try_emplace` keeps the
existing entry.  The claim that a duplicate equation raises a ParseError —
and is never silently accepted or discarded — fails on this input. -/
theorem c8_duplicate_equation_cex :
    parse_equations [(1, 1)]
        [(1, Expression.arg (.const 1 0)), (1, Expression.arg (.const 1 1))] [] =
      .ok [(1, Expression.arg (.const 1 0))] :=
  rfl

/-- C8, amended.  A duplicate equation for a declared variable is silently
skipped: the parse continues with the equation map unchanged, and no
diagnostic is produced. -/
theorem c8_duplicate_equation_skipped (vars : List (Nat × Nat)) (v : Nat)
    (e : Expression) (rest : List (Nat × Expression)) (meq : List (Nat × Expression))
    (hvars : (vars.lookup v).isSome = true)
    (hdup : (meq.lookup v).isSome = true) :
    parse_equations vars ((v, e) :: rest) meq = parse_equations vars rest meq := by
  show (if (vars.lookup v).isSome = true then
      parse_equations vars rest (try_emplace meq v e)
    else Except.error (ParseDiag.undefined_assignment v)) = parse_equations vars rest meq
  rw [if_pos hvars]
  unfold try_emplace
  rw [if_pos hdup]

/-- Witness for C8's amended theorem. -/
theorem c8_duplicate_equation_skipped_witness :
    parse_equations [(1, 1)] [(1, Expression.arg (.const 1 1))]
        [(1, Expression.arg (.const 1 0))] =
      parse_equations [(1, 1)] [] [(1, Expression.arg (.const 1 0))] :=
  c8_duplicate_equation_skipped [(1, 1)] 1 (Expression.arg (.const 1 1)) []
    [(1, Expression.arg (.const 1 0))] rfl rfl

/-- C9, counterexample.  The claim says `SLICE s e a` is accepted exactly
when `s ≤ e < width(a)`, so `SLICE 0 0 a` with `width(a) = 1` would be
accepted; the parser rejects it, because `beg >= end` is an error. -/
theorem c9_slice_equal_indices_cex :
    parse_slice_check 0 0 1 = .error (ParseDiag.slice_bad_interval 0 0) ∧
    (0 : Nat) ≤ 0 ∧ (0 : Nat) < 1 :=
  ⟨rfl, by decide, by decide⟩

/-- C9, amended.  The parser accepts `SLICE s e a` exactly when
`s < e < width(a)` (a slice with `s = e` is rejected), and the accepted
slice has result width `e − s + 1`. -/
theorem c9_slice_acceptance (s e w : Nat) :
    parse_slice_check s e w = .ok (e - s + 1) ↔ s < e ∧ e < w := by
  unfold parse_slice_check
  split_ifs with h1 h2
  · simp
    omega
  · simp
    omega
  · simp
    omega

/-- C10.  A supplied memory chunk whose name matches neither a RAM nor a ROM
block produces only a warning, after which control falls through to the size
comparison and — whenever the indeterminate `block_size` happens to equal
the chunk length — to the `std::copy` at the indeterminate `block_index`
(`bs_arb` and `bi_arb` model the two uninitialised locals). -/
theorem c10_unmatched_chunk (mm : MemoryMapper) (bs_arb bi_arb name : Nat)
    (data : List Nat)
    (hram : mm.ram_info.lookup name = none) (hrom : mm.rom_info.lookup name = none) :
    processChunk mm bs_arb bi_arb name data =
      ⟨[InitEvent.warnUnused name, InitEvent.sizeCheck bs_arb data.length] ++
         (if bs_arb = data.length then [InitEvent.copyChunk bi_arb data.length]
          else [InitEvent.exitSizeMismatch name]),
       if bs_arb = data.length then false else true⟩ := by
  unfold processChunk
  simp only [hram, hrom]
  by_cases h : bs_arb = data.length
  · simp [h]
  · simp [h]

/-- Witness for C10: an unmatched chunk named 7 of length 2, with the
indeterminate locals taking the values 2 and 99. -/
theorem c10_unmatched_chunk_witness :
    processChunk mmNoBlocks 2 99 7 [1, 2] =
      ⟨[InitEvent.warnUnused 7, InitEvent.sizeCheck 2 2] ++
         (if 2 = 2 then [InitEvent.copyChunk 99 2] else [InitEvent.exitSizeMismatch 7]),
       if 2 = 2 then false else true⟩ :=
  c10_unmatched_chunk mmNoBlocks 2 99 7 [1, 2] rfl rfl

end Netlist
